import Mathlib

/-!
# Verification of the find-by-media index/cache/scoring subsystem

Shallow embedding of the core of the `find-by-media` Eagle plugin:
the similarity engine (`js/similarity.js`), the cache store (`js/cache.js`),
the indexer (`js/indexer.js`) and the fingerprint computer (`js/hasher.js`).

Modelling conventions:
* JavaScript numbers are modelled as `ℚ` (exact rationals); machine floats
  only enter through sums, products, divisions and comparisons here, and all
  verified properties are order/algebraic facts that hold for any exact field.
* `Math.sqrt` is modelled by the computable `ratSqrt`, which agrees with the
  real square root on the properties the code depends on: it is zero exactly
  on the non-positive rationals and positive on positive inputs.
* JavaScript truthiness: a possibly-missing string field is `Option String`
  and is falsy when absent or empty; arrays are truthy whenever present, so
  possibly-missing array fields are `Option (List ℚ)` tested with `isSome`.
* The JS object used as the cache `items` map is modelled as the function
  space `String → Option Record`; the candidate pool handed to `findSimilar`
  keeps its enumeration order and is modelled as an association list.
-/

namespace FindByMedia

/-- JS truthiness of a possibly-missing string: falsy when absent or `""`. -/
def strTruthy : Option String → Bool
  | none => false
  | some s => !s.isEmpty

/-- One run of the `while (xor) { distance += xor & 1; xor >>= 1 }` loop of
`hammingDistance` (js/similarity.js), with explicit fuel so the kernel can
evaluate it; the loop halves its argument each iteration, so `fuel = n`
iterations always suffice. -/
def popCountAux : Nat → Nat → Nat
  | 0, _ => 0
  | fuel + 1, n => if n = 0 then 0 else n % 2 + popCountAux fuel (n / 2)

/-- Number of set bits of `n`: the popcount loop of `hammingDistance`. -/
def popCount (n : Nat) : Nat := popCountAux n n

/-- Model of `parseInt(c, 16)` on a single character; a non-hex character gives `NaN`,
which the subsequent JS bitwise XOR coerces to `0`. -/
def hexVal (c : Char) : Nat :=
  if c = '0' then 0 else if c = '1' then 1 else if c = '2' then 2
  else if c = '3' then 3 else if c = '4' then 4 else if c = '5' then 5
  else if c = '6' then 6 else if c = '7' then 7 else if c = '8' then 8
  else if c = '9' then 9 else if c = 'a' then 10 else if c = 'b' then 11
  else if c = 'c' then 12 else if c = 'd' then 13 else if c = 'e' then 14
  else if c = 'f' then 15 else if c = 'A' then 10 else if c = 'B' then 11
  else if c = 'C' then 12 else if c = 'D' then 13 else if c = 'E' then 14
  else if c = 'F' then 15 else 0

/-- Constant `Similarity.MAX_HAMMING_BITS` (js/similarity.js line 18). -/
def MAX_HAMMING_BITS : Nat := 256

/-- Function `Similarity.hammingDistance` (js/similarity.js lines 23–38): worst-case
distance when either hash is falsy or the lengths differ, otherwise the sum of
per-character popcounts of the XOR of the hex digits. -/
def hammingDistance (hash1 hash2 : Option String) : Nat :=
  if !strTruthy hash1 || !strTruthy hash2
      || ((hash1.getD "").length != (hash2.getD "").length) then
    MAX_HAMMING_BITS
  else
    (List.zipWith (fun c1 c2 => popCount (hexVal c1 ^^^ hexVal c2))
      (hash1.getD "").toList (hash2.getD "").toList).sum

/-- Function `Similarity.pHashScore` (js/similarity.js lines 43–46). -/
def pHashScore (hash1 hash2 : Option String) : ℚ :=
  1 - (hammingDistance hash1 hash2 : ℚ) / (MAX_HAMMING_BITS : ℚ)

/-- Dot product accumulated by the loops of `histogramSimilarity` and
`clipSimilarity` (js/similarity.js). -/
def dotList (a b : List ℚ) : ℚ := (List.zipWith (· * ·) a b).sum

/-- Computable stand-in for `Math.sqrt` on the rationals: zero exactly on
non-positive inputs, positive on positive inputs (the two facts the code
depends on through its `mag === 0` guards). -/
def ratSqrt (q : ℚ) : ℚ :=
  if q ≤ 0 then 0 else (Nat.sqrt (q.num.toNat * q.den) : ℚ) / (q.den : ℚ)

/-- Function `Similarity.histogramSimilarity` (js/similarity.js lines 51–63): cosine
similarity, `0` when either vector is missing or the lengths differ or either
magnitude is zero. -/
def histogramSimilarity (hist1 hist2 : Option (List ℚ)) : ℚ :=
  match hist1, hist2 with
  | some a, some b =>
    if a.length ≠ b.length then 0
    else
      let dot := dotList a b
      let mag1 := ratSqrt (dotList a a)
      let mag2 := ratSqrt (dotList b b)
      if mag1 = 0 ∨ mag2 = 0 then 0 else dot / (mag1 * mag2)
  | _, _ => 0

/-- Function `Similarity.clipSimilarity` (js/similarity.js lines 69–77): clamped dot
product remapped from `[-1, 1]` to `[0, 1]`; `0` when either embedding is
missing or the lengths differ. -/
def clipSimilarity (emb1 emb2 : Option (List ℚ)) : ℚ :=
  match emb1, emb2 with
  | some a, some b =>
    if a.length ≠ b.length then 0
    else (max (-1) (min 1 (dotList a b)) + 1) / 2
  | _, _ => 0

/-- A cached fingerprint record (the value type of the cache `items` map). -/
structure Record where
  pHash : Option String
  colorHistogram : Option (List ℚ)
  embedding : Option (List ℚ)
  ext : Option String
  deriving DecidableEq, Repr

/-- The three search modes of `Similarity` (js/similarity.js lines 9–11). -/
inductive Mode where
  | phash
  | clip
  | hybrid
  deriving DecidableEq, Repr

/-- Constant `Similarity.PHASH_WEIGHT`. -/
def PHASH_WEIGHT : ℚ := 0.25
/-- Constant `Similarity.COLOR_WEIGHT`. -/
def COLOR_WEIGHT : ℚ := 0.15
/-- Constant `Similarity.CLIP_WEIGHT`. -/
def CLIP_WEIGHT : ℚ := 0.60

/-- The `pScore` binding of the hybrid branch of `combinedScore`
(js/similarity.js lines 97–98): guarded by string truthiness of both hashes. -/
def pScoreHybrid (queryData candidateData : Record) : ℚ :=
  if strTruthy queryData.pHash && strTruthy candidateData.pHash then
    pHashScore queryData.pHash candidateData.pHash
  else 0

/-- The `cScore` binding of the hybrid branch of `combinedScore`
(js/similarity.js lines 99–100): arrays are truthy whenever present. -/
def cScoreHybrid (queryData candidateData : Record) : ℚ :=
  if queryData.colorHistogram.isSome && candidateData.colorHistogram.isSome then
    histogramSimilarity queryData.colorHistogram candidateData.colorHistogram
  else 0

/-- The `eScore` binding of the hybrid branch of `combinedScore`
(js/similarity.js lines 101–102). -/
def eScoreHybrid (queryData candidateData : Record) : ℚ :=
  if queryData.embedding.isSome && candidateData.embedding.isSome then
    clipSimilarity queryData.embedding candidateData.embedding
  else 0

/-- Function `Similarity.combinedScore` (js/similarity.js lines 82–112). -/
def combinedScore (queryData candidateData : Record) (mode : Mode) : ℚ :=
  match mode with
  | Mode.clip =>
    if queryData.embedding.isNone || candidateData.embedding.isNone then 0
    else clipSimilarity queryData.embedding candidateData.embedding
  | Mode.phash =>
    0.6 * pHashScore queryData.pHash candidateData.pHash
      + 0.4 * histogramSimilarity queryData.colorHistogram candidateData.colorHistogram
  | Mode.hybrid =>
    if queryData.embedding.isNone || candidateData.embedding.isNone then
      0.6 * pScoreHybrid queryData candidateData
        + 0.4 * cScoreHybrid queryData candidateData
    else
      PHASH_WEIGHT * pScoreHybrid queryData candidateData
        + COLOR_WEIGHT * cScoreHybrid queryData candidateData
        + CLIP_WEIGHT * eScoreHybrid queryData candidateData

/-- Body of the candidate loop of `findSimilar` (js/similarity.js lines
123–138): `none` when the candidate is skipped (excluded id, missing entry, or
missing mode-mandatory field, or below threshold), otherwise the scored pair. -/
def considerCandidate (queryData : Record) (thresholdNorm : ℚ)
    (excludeId : Option String) (searchMode : Mode)
    (entry : String × Option Record) : Option (String × ℚ) :=
  if excludeId = some entry.1 then none
  else
    match entry.2 with
    | none => none
    | some candidate =>
      if searchMode = Mode.clip ∧ candidate.embedding.isNone then none
      else if searchMode = Mode.phash ∧ !strTruthy candidate.pHash then none
      else
        let score := combinedScore queryData candidate searchMode
        if thresholdNorm ≤ score then some (entry.1, score) else none

/-- Function `Similarity.findSimilar` (js/similarity.js lines 117–142): filter, score,
threshold, stable sort by descending score, truncate to `maxResults`.
`mode = none` models the JS default `mode || MODE_PHASH`; `excludeId = none`
models the `null` passed for external-file searches. -/
def findSimilar (queryData : Record) (cacheItems : List (String × Option Record))
    (threshold : ℚ) (maxResults : Nat) (excludeId : Option String)
    (mode : Option Mode) : List (String × ℚ) :=
  let thresholdNorm := threshold / 100
  let searchMode := mode.getD Mode.phash
  let results := cacheItems.filterMap
    (considerCandidate queryData thresholdNorm excludeId searchMode)
  (results.mergeSort (fun a b => decide (b.2 ≤ a.2))).take maxResults

/-! ## Cache store (js/cache.js) -/

/-- The persisted cache document (`Cache._data`): schema version, library
identity, and the items map. The JS object holding the items is modelled as a
function from ids to optional records. -/
structure CacheDocument where
  version : Nat
  libraryPath : String
  items : String → Option Record

/-- Constant `Cache.CACHE_VERSION` (js/cache.js line 156). -/
def CACHE_VERSION : Nat := 3

/-- Function `Cache._load` (js/cache.js lines 188–210): keep the on-disk document only
when both the schema version and the library path match; otherwise (including
a missing or unreadable file, `onDisk = none`) start from an empty document
bound to the new library path. -/
def loadCache (onDisk : Option CacheDocument) (libraryPath : String) :
    CacheDocument :=
  match onDisk with
  | some parsed =>
    if parsed.version = CACHE_VERSION ∧ parsed.libraryPath = libraryPath then
      parsed
    else
      { version := CACHE_VERSION, libraryPath := libraryPath, items := fun _ => none }
  | none =>
    { version := CACHE_VERSION, libraryPath := libraryPath, items := fun _ => none }

/-- Function `Cache.getHash` (js/cache.js lines 251–254). -/
def getHash (d : CacheDocument) (itemId : String) : Option Record :=
  d.items itemId

/-- Function `Cache.hasValidHash` (js/cache.js lines 259–265): the record must have a
truthy `pHash` and a present, non-empty `colorHistogram`. -/
def hasValidHash (d : CacheDocument) (itemId : String) : Bool :=
  match d.items itemId with
  | none => false
  | some cached =>
    strTruthy cached.pHash && cached.colorHistogram.isSome
      && decide (0 < (cached.colorHistogram.getD []).length)

/-- Function `Cache.setHash` (js/cache.js lines 270–274): replace the record for the
id (persistence debouncing is timing-only and not modelled). -/
def setHash (d : CacheDocument) (itemId : String) (hashData : Record) :
    CacheDocument :=
  { d with items := fun id => if id = itemId then some hashData else d.items id }

/-- Function `Cache.removeOrphans` (js/cache.js lines 287–304): delete every record
whose id is not among `validIds`. -/
def removeOrphans (d : CacheDocument) (validIds : List String) : CacheDocument :=
  { d with items := fun id => if validIds.contains id then d.items id else none }

/-! ## Indexer (js/indexer.js) -/

/-- A library item as the indexer consumes it (id, extension, and the two
possible file locations). -/
structure Item where
  id : String
  ext : Option String
  thumbnailPath : Option String
  filePath : Option String
  deriving DecidableEq, Repr

/-- Constant `IMAGE_EXTENSIONS` (js/indexer.js lines 408–411). -/
def IMAGE_EXTENSIONS : List String :=
  ["jpg", "jpeg", "png", "gif", "bmp", "webp", "svg", "tiff", "tif", "ico", "avif"]

/-- Model of `ext.toLowerCase()`: ASCII lowercasing, mapping `Char.toLower` over the
characters (recursor-friendly restatement of `String.toLower`, which maps the
same function over the same characters). -/
def strToLower (s : String) : String := ⟨s.data.map Char.toLower⟩

/-- Function `Indexer.isImageType` (js/indexer.js lines 424–427). -/
def isImageType (ext : Option String) : Bool :=
  if !strTruthy ext then false
  else IMAGE_EXTENSIONS.contains (strToLower (ext.getD ""))

/-- Function `Indexer.getHashPath` (js/indexer.js lines 429–433): thumbnail path if
truthy, else file path if truthy, else nothing. -/
def getHashPath (item : Item) : Option String :=
  if strTruthy item.thumbnailPath then item.thumbnailPath
  else if strTruthy item.filePath then item.filePath
  else none

/-- The result of `Hasher.computeHashes` (js/hasher.js lines 447–453). -/
structure HashResult where
  pHash : String
  colorHistogram : List ℚ
  deriving DecidableEq, Repr

/-- One item of the phase-1 chunk loop body (js/indexer.js lines 492–503):
skip when there is no usable path or hashing fails (`none` from the hash
oracle models the thrown `DecodeError`), otherwise write a fresh record with
`pHash`, `colorHistogram` and `ext` — and no `embedding` field. -/
def indexPhashStep (hasher : String → Option HashResult)
    (d : CacheDocument) (item : Item) : CacheDocument :=
  match getHashPath item with
  | none => d
  | some hashPath =>
    match hasher hashPath with
    | none => d
    | some hashes =>
      setHash d item.id
        { pHash := some hashes.pHash
          colorHistogram := some hashes.colorHistogram
          embedding := none
          ext := item.ext }

/-- Function `Indexer._indexPhash` (js/indexer.js lines 465–512): filter to image items
without a valid cached hash; if none remain, return immediately; otherwise
remove orphans using the full valid-id set and process the remaining items.
Chunking (`CHUNK_SIZE`), inter-chunk delays and progress callbacks only affect
timing, so the chunked `Promise.all` loop is modelled as a left fold over the
items; cancellation (`_shouldStop`) is modelled as never requested. -/
def indexPhash (hasher : String → Option HashResult) (items : List Item)
    (d : CacheDocument) : CacheDocument :=
  let toIndex := items.filter
    (fun item => isImageType item.ext && !hasValidHash d item.id)
  if toIndex.isEmpty then d
  else
    let validIds := items.map Item.id
    let d1 := removeOrphans d validIds
    toIndex.foldl (indexPhashStep hasher) d1

/-- One item of the phase-2 loop body (js/indexer.js lines 544–565): skip when
there is no usable path or the embedder fails, otherwise spread the existing
record (or `{}` when absent) and set only the `embedding` field. -/
def indexClipStep (embedder : String → Option (List ℚ))
    (d : CacheDocument) (item : Item) : CacheDocument :=
  match getHashPath item with
  | none => d
  | some hashPath =>
    match embedder hashPath with
    | none => d
    | some embedding =>
      let existing := (getHash d item.id).getD
        { pHash := none, colorHistogram := none, embedding := none, ext := none }
      setHash d item.id { existing with embedding := some embedding }

/-- Function `Indexer._indexClip` (js/indexer.js lines 517–569): skip everything when
the embedder is not ready; otherwise process the image items that have a
cached record without an embedding, one at a time. -/
def indexClip (embedder : String → Option (List ℚ)) (embedderReady : Bool)
    (items : List Item) (d : CacheDocument) : CacheDocument :=
  if !embedderReady then d
  else
    let toEmbed := items.filter (fun item =>
      isImageType item.ext &&
        match getHash d item.id with
        | some cached => cached.embedding.isNone
        | none => false)
    toEmbed.foldl (indexClipStep embedder) d

/-! ## Fingerprint computer (js/hasher.js) -/

/-- One RGBA pixel of the decoded 64×64 image handed to
`computeColorHistogram`; channels are byte values. -/
structure Pixel where
  r : Nat
  g : Nat
  b : Nat
  a : Nat
  deriving DecidableEq, Repr

/-- The bin index `rBin * 16 + gBin * 4 + bBin` of `computeColorHistogram`
(js/hasher.js lines 425–428). -/
def binIndex (p : Pixel) : Nat :=
  min (p.r / 64) 3 * 16 + min (p.g / 64) 3 * 4 + min (p.b / 64) 3

/-- One iteration of the pixel loop of `computeColorHistogram` (js/hasher.js
lines 421–431): skip pixels with alpha below 128, otherwise increment the
pixel's bin and the counted-pixel count. -/
def histAccum (acc : List Nat × Nat) (p : Pixel) : List Nat × Nat :=
  if p.a < 128 then acc
  else (acc.1.set (binIndex p) (acc.1.getD (binIndex p) 0 + 1), acc.2 + 1)

/-- Function `Hasher.computeColorHistogram` (js/hasher.js lines 414–441), as a pure
function of the decoded pixels: accumulate 64 bin counts, then normalize by
the counted-pixel count only when it is positive. -/
def computeColorHistogram (pixels : List Pixel) : List ℚ :=
  let acc := pixels.foldl histAccum (List.replicate 64 0, 0)
  if 0 < acc.2 then acc.1.map (fun c : ℕ => (c : ℚ) / (acc.2 : ℚ))
  else acc.1.map (fun c : ℕ => (c : ℚ))

/-- A well-formed perceptual hash: 64 hex characters (the output format of
`computePHash`, a 256-bit hash as a 64-character hex string). -/
def isHexChar (c : Char) : Bool :=
  c.isDigit || ('a' ≤ c && c ≤ 'f') || ('A' ≤ c && c ≤ 'F')

/-! ## Helper lemmas -/

theorem ite_le_of_le {c : Prop} [Decidable c] {a b n : Nat} (h1 : a ≤ n)
    (h2 : b ≤ n) : (if c then a else b) ≤ n := by
  split
  · exact h1
  · exact h2

theorem hexVal_le (c : Char) : hexVal c ≤ 15 := by
  unfold hexVal
  repeat' apply ite_le_of_le
  all_goals omega

theorem exists_of_mem_zipWith {α β γ : Type} {f : α → β → γ}
    {la : List α} {lb : List β} {x : γ} (h : x ∈ List.zipWith f la lb) :
    ∃ a b, a ∈ la ∧ b ∈ lb ∧ x = f a b := by
  induction la generalizing lb with
  | nil => simp at h
  | cons a as ih =>
    cases lb with
    | nil => simp at h
    | cons b bs =>
      rw [List.zipWith_cons_cons, List.mem_cons] at h
      rcases h with h | h
      · exact ⟨a, b, List.mem_cons_self .., List.mem_cons_self .., h⟩
      · obtain ⟨a', b', ha, hb, hx⟩ := ih h
        exact ⟨a', b', List.mem_cons_of_mem _ ha, List.mem_cons_of_mem _ hb, hx⟩

theorem popCount_le_four {n : Nat} (h : n < 16) : popCount n ≤ 4 := by
  revert n h
  decide

theorem popCount_zero : popCount 0 = 0 := rfl

theorem popCount_xor_hexVal_le (c1 c2 : Char) :
    popCount (hexVal c1 ^^^ hexVal c2) ≤ 4 := by
  apply popCount_le_four
  have h1 : hexVal c1 < 2 ^ 4 := by have := hexVal_le c1; omega
  have h2 : hexVal c2 < 2 ^ 4 := by have := hexVal_le c2; omega
  have := Nat.xor_lt_two_pow (n := 4) h1 h2
  omega

theorem strTruthy_of_length {s : String} (h : s.length = 64) :
    strTruthy (some s) = true := by
  have hne : s ≠ "" := by intro he; subst he; simp at h
  have hf : s.isEmpty = false := by
    rw [Bool.eq_false_iff]
    intro h'
    exact hne ((String.isEmpty_iff s).mp h')
  simp [strTruthy, hf]

theorem hammingDistance_self {h : String} (hne : strTruthy (some h) = true) :
    hammingDistance (some h) (some h) = 0 := by
  unfold hammingDistance
  rw [hne]
  simp only [Bool.not_true, Bool.false_or, Option.getD_some, bne_self_eq_false,
    Bool.or_false, Bool.false_eq_true, if_false]
  rw [List.zipWith_same]
  apply List.sum_eq_zero
  intro x hx
  obtain ⟨c, _, rfl⟩ := List.mem_map.mp hx
  rw [Nat.xor_self]
  exact popCount_zero

theorem hammingDistance_comm (a b : Option String) :
    hammingDistance a b = hammingDistance b a := by
  unfold hammingDistance
  by_cases ha : strTruthy a <;> by_cases hb : strTruthy b <;>
    simp only [ha, hb, Bool.not_true, Bool.not_false, Bool.false_or,
      Bool.true_or, Bool.or_true, if_true]
  by_cases hl : (a.getD "").length = (b.getD "").length
  · simp only [hl, bne_self_eq_false, Bool.false_eq_true, if_false]
    rw [List.zipWith_comm_of_comm]
    intro x y
    rw [Nat.xor_comm]
  · have hl' : (b.getD "").length ≠ (a.getD "").length := Ne.symm hl
    simp [bne_iff_ne, hl, hl']

theorem hammingDistance_of_falsy {a b : Option String}
    (h : strTruthy a = false ∨ strTruthy b = false) :
    hammingDistance a b = MAX_HAMMING_BITS := by
  unfold hammingDistance
  rcases h with h | h <;> simp [h]

theorem hammingDistance_of_length_ne {a b : String}
    (h : a.length ≠ b.length) :
    hammingDistance (some a) (some b) = MAX_HAMMING_BITS := by
  unfold hammingDistance
  by_cases ha : strTruthy (some a) <;> by_cases hb : strTruthy (some b) <;>
    simp [ha, hb, bne_iff_ne, h]

theorem hammingDistance_le {h1 h2 : String}
    (hl1 : h1.length = 64) (hl2 : h2.length = 64) :
    hammingDistance (some h1) (some h2) ≤ 256 := by
  unfold hammingDistance
  split
  · exact le_refl _
  · have hlen : (List.zipWith (fun c1 c2 => popCount (hexVal c1 ^^^ hexVal c2))
        ((some h1).getD "").toList ((some h2).getD "").toList).length = 64 := by
      simp only [Option.getD_some, List.length_zipWith]
      have e1 : h1.toList.length = 64 := by
        rw [← String.length]; exact hl1
      have e2 : h2.toList.length = 64 := by
        rw [← String.length]; exact hl2
      omega
    calc (List.zipWith (fun c1 c2 => popCount (hexVal c1 ^^^ hexVal c2))
            ((some h1).getD "").toList ((some h2).getD "").toList).sum
        ≤ (List.zipWith (fun c1 c2 => popCount (hexVal c1 ^^^ hexVal c2))
            ((some h1).getD "").toList ((some h2).getD "").toList).length • 4 := by
          apply List.sum_le_card_nsmul
          intro x hx
          obtain ⟨c1, c2, _, _, rfl⟩ := exists_of_mem_zipWith hx
          exact popCount_xor_hexVal_le c1 c2
      _ = 256 := by rw [hlen]; norm_num

/-! ## Claim theorems: similarity primitives -/

/-- C8: `hammingDistance(h, h) = 0` for every well-formed (64-hex-character)
hash `h`; `hammingDistance` is symmetric on all inputs; and it returns the
maximum possible distance (256) whenever the two strings have different
lengths or either is missing. -/
theorem hammingDistance_spec :
    (∀ h : String, h.length = 64 → h.data.all isHexChar = true →
        hammingDistance (some h) (some h) = 0)
    ∧ (∀ a b : Option String, hammingDistance a b = hammingDistance b a)
    ∧ (∀ a b : String, a.length ≠ b.length →
        hammingDistance (some a) (some b) = MAX_HAMMING_BITS)
    ∧ (∀ b : Option String,
        hammingDistance none b = MAX_HAMMING_BITS
          ∧ hammingDistance b none = MAX_HAMMING_BITS) := by
  refine ⟨?_, hammingDistance_comm, ?_, ?_⟩
  · intro h hl _
    exact hammingDistance_self (strTruthy_of_length hl)
  · intro a b h
    exact hammingDistance_of_length_ne h
  · intro b
    exact ⟨hammingDistance_of_falsy (Or.inl rfl),
      hammingDistance_of_falsy (Or.inr rfl)⟩

/-- Concrete instance of `hammingDistance_spec`: the all-zero 64-hex hash has
distance 0 from itself; mismatched lengths and a missing hash give 256. -/
theorem hammingDistance_spec_witness :
    hammingDistance
        (some "0000000000000000000000000000000000000000000000000000000000000000")
        (some "0000000000000000000000000000000000000000000000000000000000000000") = 0
    ∧ hammingDistance (some "a") (some "bb") = MAX_HAMMING_BITS
    ∧ hammingDistance none (some "ff") = MAX_HAMMING_BITS := by
  refine ⟨hammingDistance_spec.1 _ (by decide) (by decide),
    hammingDistance_spec.2.2.1 "a" "bb" (by decide),
    (hammingDistance_spec.2.2.2 (some "ff")).1⟩

/-- C7: for 64-character hash strings, `pHashScore(h1, h2)` equals
`1 - hammingDistance(h1, h2) / 256`, lies in `[0, 1]`, and is strictly
decreasing as the Hamming distance increases. -/
theorem pHashScore_spec (h1 h2 : String) (hl1 : h1.length = 64)
    (hl2 : h2.length = 64) :
    pHashScore (some h1) (some h2)
        = 1 - (hammingDistance (some h1) (some h2) : ℚ) / 256
    ∧ 0 ≤ pHashScore (some h1) (some h2)
    ∧ pHashScore (some h1) (some h2) ≤ 1
    ∧ (∀ a b a' b' : Option String,
        hammingDistance a b < hammingDistance a' b' →
          pHashScore a' b' < pHashScore a b) := by
  have hd := hammingDistance_le hl1 hl2
  have hdq : (hammingDistance (some h1) (some h2) : ℚ) ≤ 256 := by
    exact_mod_cast hd
  have hd0 : (0 : ℚ) ≤ (hammingDistance (some h1) (some h2) : ℚ) :=
    Nat.cast_nonneg _
  refine ⟨by norm_num [pHashScore, MAX_HAMMING_BITS], ?_, ?_, ?_⟩
  · unfold pHashScore MAX_HAMMING_BITS
    have hle : (hammingDistance (some h1) (some h2) : ℚ) / 256 ≤ 1 := by
      rw [div_le_one (by norm_num)]
      exact hdq
    push_cast
    linarith
  · unfold pHashScore MAX_HAMMING_BITS
    have hge : (0 : ℚ) ≤ (hammingDistance (some h1) (some h2) : ℚ) / 256 := by
      positivity
    push_cast
    linarith
  · intro a b a' b' hlt
    unfold pHashScore MAX_HAMMING_BITS
    have hq : (hammingDistance a b : ℚ) < (hammingDistance a' b' : ℚ) := by
      exact_mod_cast hlt
    have hdiv : (hammingDistance a b : ℚ) / 256
        < (hammingDistance a' b' : ℚ) / 256 := by
      rw [div_lt_div_iff_of_pos_right (by norm_num : (0:ℚ) < 256)]
      exact hq
    push_cast
    linarith

/-- Concrete instance of `pHashScore_spec`: bounds at the all-zero hash and a
strict decrease from distance 0 to distance 256. -/
theorem pHashScore_spec_witness :
    0 ≤ pHashScore
        (some "0000000000000000000000000000000000000000000000000000000000000000")
        (some "0000000000000000000000000000000000000000000000000000000000000000")
    ∧ pHashScore
        (some "0000000000000000000000000000000000000000000000000000000000000000")
        (some "0000000000000000000000000000000000000000000000000000000000000000") ≤ 1
    ∧ pHashScore (some "a") (some "ab") < pHashScore
        (some "0000000000000000000000000000000000000000000000000000000000000000")
        (some "0000000000000000000000000000000000000000000000000000000000000000") := by
  have h := pHashScore_spec
    "0000000000000000000000000000000000000000000000000000000000000000"
    "0000000000000000000000000000000000000000000000000000000000000000"
    (by decide) (by decide)
  exact ⟨h.2.1, h.2.2.1, h.2.2.2 _ _ (some "a") (some "ab") (by decide)⟩

theorem dotList_comm (a b : List ℚ) : dotList a b = dotList b a := by
  unfold dotList
  rw [List.zipWith_comm_of_comm]
  intro x y
  exact mul_comm x y

theorem ratSqrt_zero : ratSqrt 0 = 0 := by
  simp [ratSqrt]

theorem histogramSimilarity_none_left (b : Option (List ℚ)) :
    histogramSimilarity none b = 0 := by
  cases b <;> rfl

theorem histogramSimilarity_none_right (a : Option (List ℚ)) :
    histogramSimilarity a none = 0 := by
  cases a <;> rfl

theorem histogramSimilarity_zero_mag {a b : List ℚ}
    (h : dotList a a = 0 ∨ dotList b b = 0) :
    histogramSimilarity (some a) (some b) = 0 := by
  simp only [histogramSimilarity]
  by_cases hl : a.length = b.length
  · rw [if_neg (by omega : ¬a.length ≠ b.length), if_pos]
    rcases h with h | h
    · exact Or.inl (by rw [h, ratSqrt_zero])
    · exact Or.inr (by rw [h, ratSqrt_zero])
  · rw [if_pos hl]

theorem dotList_self_zero {a : List ℚ} (h : ∀ x ∈ a, x = 0) :
    dotList a a = 0 := by
  unfold dotList
  apply List.sum_eq_zero
  intro x hx
  obtain ⟨y, z, hy, _, rfl⟩ := exists_of_mem_zipWith hx
  rw [h y hy, zero_mul]

/-- C9: `histogramSimilarity` is symmetric, and returns 0 whenever either
vector has zero magnitude (in particular when either is all-zero), either is
missing, or the lengths differ. (`dotList v v` is the squared magnitude
`mag²` that the code takes the square root of.) -/
theorem histogramSimilarity_spec :
    (∀ a b : Option (List ℚ),
        histogramSimilarity a b = histogramSimilarity b a)
    ∧ (∀ a b : List ℚ, dotList a a = 0 ∨ dotList b b = 0 →
        histogramSimilarity (some a) (some b) = 0)
    ∧ (∀ a b : List ℚ, (∀ x ∈ a, x = 0) →
        histogramSimilarity (some a) (some b) = 0
          ∧ histogramSimilarity (some b) (some a) = 0)
    ∧ (∀ b : Option (List ℚ),
        histogramSimilarity none b = 0 ∧ histogramSimilarity b none = 0)
    ∧ (∀ a b : List ℚ, a.length ≠ b.length →
        histogramSimilarity (some a) (some b) = 0) := by
  refine ⟨?_, fun a b h => histogramSimilarity_zero_mag h, ?_, ?_, ?_⟩
  · intro a b
    match a, b with
    | none, b => rw [histogramSimilarity_none_left, histogramSimilarity_none_right]
    | some a, none => rw [histogramSimilarity_none_left, histogramSimilarity_none_right]
    | some a, some b =>
      simp only [histogramSimilarity]
      by_cases hl : a.length = b.length
      · rw [if_neg (by omega : ¬a.length ≠ b.length),
          if_neg (by omega : ¬b.length ≠ a.length), dotList_comm a b]
        exact if_congr or_comm rfl (by rw [mul_comm])
      · rw [if_pos hl, if_pos (by omega : b.length ≠ a.length)]
  · intro a b h
    exact ⟨histogramSimilarity_zero_mag (Or.inl (dotList_self_zero h)),
      histogramSimilarity_zero_mag (Or.inr (dotList_self_zero h))⟩
  · intro b
    exact ⟨histogramSimilarity_none_left b, histogramSimilarity_none_right b⟩
  · intro a b h
    simp only [histogramSimilarity]
    rw [if_pos h]

/-- Concrete instance of `histogramSimilarity_spec`: symmetry on a sample
pair, zero on an all-zero vector, a missing vector and a length mismatch. -/
theorem histogramSimilarity_spec_witness :
    histogramSimilarity (some [1, 2]) (some [3, 4])
        = histogramSimilarity (some [3, 4]) (some [1, 2])
    ∧ histogramSimilarity (some [0, 0]) (some [1, 2]) = 0
    ∧ histogramSimilarity none (some [1]) = 0
    ∧ histogramSimilarity (some [1]) (some [1, 2]) = 0 := by
  refine ⟨histogramSimilarity_spec.1 _ _,
    (histogramSimilarity_spec.2.2.1 [0, 0] [1, 2] ?_).1,
    (histogramSimilarity_spec.2.2.2.1 (some [1])).1,
    histogramSimilarity_spec.2.2.2.2 [1] [1, 2] (by decide)⟩
  intro x hx
  simpa using hx

theorem clipSimilarity_none_left (b : Option (List ℚ)) :
    clipSimilarity none b = 0 := by
  cases b <;> rfl

theorem clipSimilarity_none_right (a : Option (List ℚ)) :
    clipSimilarity a none = 0 := by
  cases a <;> rfl

theorem clipSimilarity_eq_zero {e1 e2 : Option (List ℚ)}
    (h : e1.isNone = true ∨ e2.isNone = true
        ∨ (e1.getD []).length ≠ (e2.getD []).length) :
    clipSimilarity e1 e2 = 0 := by
  match e1, e2 with
  | none, e2 => exact clipSimilarity_none_left e2
  | some a, none => exact clipSimilarity_none_right (some a)
  | some a, some b =>
    simp only [Option.isNone_some, Bool.false_eq_true, false_or,
      Option.getD_some] at h
    simp only [clipSimilarity]
    rw [if_pos h]

/-- C10 (implicit): for embedding vectors of different lengths (e.g. the
512-dim CLIP variant vs. the 1000-dim MobileNet variant), and whenever either
embedding is missing, the embedding similarity score is 0 rather than an
error, in both modes that consume embeddings: `clipSimilarity` itself returns
0, SemanticMode's whole combined score is 0, and the `eScore` term of
HybridMode is 0. -/
theorem clipSimilarity_mismatch_spec (e1 e2 : Option (List ℚ))
    (h : e1.isNone = true ∨ e2.isNone = true
        ∨ (e1.getD []).length ≠ (e2.getD []).length) :
    clipSimilarity e1 e2 = 0
    ∧ (∀ q c : Record, q.embedding = e1 → c.embedding = e2 →
        combinedScore q c Mode.clip = 0 ∧ eScoreHybrid q c = 0) := by
  have h0 : clipSimilarity e1 e2 = 0 := clipSimilarity_eq_zero h
  refine ⟨h0, ?_⟩
  intro q c hq hc
  constructor
  · simp only [combinedScore]
    split
    · rfl
    · rw [hq, hc]
      exact h0
  · unfold eScoreHybrid
    split
    · rw [hq, hc]
      exact h0
    · rfl

/-- Concrete instance of `clipSimilarity_mismatch_spec`: a 512-dim embedding
against a 1000-dim embedding scores 0 in every consumer. -/
theorem clipSimilarity_mismatch_spec_witness :
    clipSimilarity (some (List.replicate 512 (0 : ℚ)))
        (some (List.replicate 1000 (0 : ℚ))) = 0
    ∧ combinedScore
        { pHash := none, colorHistogram := none,
          embedding := some (List.replicate 512 (0 : ℚ)), ext := none }
        { pHash := none, colorHistogram := none,
          embedding := some (List.replicate 1000 (0 : ℚ)), ext := none }
        Mode.clip = 0
    ∧ eScoreHybrid
        { pHash := none, colorHistogram := none,
          embedding := some (List.replicate 512 (0 : ℚ)), ext := none }
        { pHash := none, colorHistogram := none,
          embedding := some (List.replicate 1000 (0 : ℚ)), ext := none } = 0 := by
  have h := clipSimilarity_mismatch_spec
    (some (List.replicate 512 (0 : ℚ))) (some (List.replicate 1000 (0 : ℚ)))
    (Or.inr (Or.inr (by
      rw [Option.getD_some, Option.getD_some, List.length_replicate,
        List.length_replicate]
      omega)))
  exact ⟨h.1, (h.2 _ _ rfl rfl).1, (h.2 _ _ rfl rfl).2⟩

theorem pHashScore_of_falsy {a b : Option String}
    (h : strTruthy a = false ∨ strTruthy b = false) : pHashScore a b = 0 := by
  unfold pHashScore
  rw [hammingDistance_of_falsy h]
  norm_num [MAX_HAMMING_BITS]

theorem pScoreHybrid_eq (q c : Record) :
    pScoreHybrid q c = pHashScore q.pHash c.pHash := by
  unfold pScoreHybrid
  split
  · rfl
  · rename_i hg
    rw [Bool.and_eq_true, not_and_or] at hg
    symm
    apply pHashScore_of_falsy
    rcases hg with hg | hg
    · exact Or.inl (Bool.not_eq_true _ ▸ hg)
    · exact Or.inr (Bool.not_eq_true _ ▸ hg)

theorem cScoreHybrid_eq (q c : Record) :
    cScoreHybrid q c
      = histogramSimilarity q.colorHistogram c.colorHistogram := by
  unfold cScoreHybrid
  split
  · rfl
  · rename_i hg
    rw [Bool.and_eq_true, not_and_or] at hg
    symm
    rcases hg with hg | hg
    · have : q.colorHistogram = none := by
        cases h : q.colorHistogram
        · rfl
        · rw [h] at hg; simp at hg
      rw [this, histogramSimilarity_none_left]
    · have : c.colorHistogram = none := by
        cases h : c.colorHistogram
        · rfl
        · rw [h] at hg; simp at hg
      rw [this, histogramSimilarity_none_right]

theorem eScoreHybrid_eq (q c : Record) :
    eScoreHybrid q c = clipSimilarity q.embedding c.embedding := by
  unfold eScoreHybrid
  split
  · rfl
  · rename_i hg
    rw [Bool.and_eq_true, not_and_or] at hg
    symm
    rcases hg with hg | hg
    · have : q.embedding = none := by
        cases h : q.embedding
        · rfl
        · rw [h] at hg; simp at hg
      rw [this, clipSimilarity_none_left]
    · have : c.embedding = none := by
        cases h : c.embedding
        · rfl
        · rw [h] at hg; simp at hg
      rw [this, clipSimilarity_none_right]

/-- C2: in HybridMode, when at least one side lacks an embedding, the combined
score equals the PixelMode formula `0.6·pHashScore + 0.4·histogramScore`
applied to the same pHash/histogram pair (and hence equals the PixelMode
combined score, not zero); when both sides have embeddings it equals
`0.25·pHashScore + 0.15·histogramScore + 0.60·embeddingScore`. -/
theorem combinedScore_hybrid_spec (q c : Record) :
    (¬(q.embedding.isSome = true ∧ c.embedding.isSome = true) →
      combinedScore q c Mode.hybrid
          = 0.6 * pHashScore q.pHash c.pHash
            + 0.4 * histogramSimilarity q.colorHistogram c.colorHistogram
        ∧ combinedScore q c Mode.hybrid = combinedScore q c Mode.phash)
    ∧ ((q.embedding.isSome = true ∧ c.embedding.isSome = true) →
      combinedScore q c Mode.hybrid
          = 0.25 * pHashScore q.pHash c.pHash
            + 0.15 * histogramSimilarity q.colorHistogram c.colorHistogram
            + 0.60 * clipSimilarity q.embedding c.embedding) := by
  constructor
  · intro h
    have hn : (q.embedding.isNone || c.embedding.isNone) = true := by
      cases hq : q.embedding <;> cases hc : c.embedding <;>
        simp_all
    have key : combinedScore q c Mode.hybrid
        = 0.6 * pHashScore q.pHash c.pHash
          + 0.4 * histogramSimilarity q.colorHistogram c.colorHistogram := by
      simp only [combinedScore]
      rw [if_pos hn, pScoreHybrid_eq, cScoreHybrid_eq]
    exact ⟨key, by rw [key]; rfl⟩
  · intro ⟨h1, h2⟩
    have hn : (q.embedding.isNone || c.embedding.isNone) = false := by
      cases hq : q.embedding <;> cases hc : c.embedding <;> simp_all
    simp only [combinedScore]
    rw [if_neg (by rw [hn]; exact Bool.false_ne_true),
      pScoreHybrid_eq, cScoreHybrid_eq, eScoreHybrid_eq]
    norm_num [PHASH_WEIGHT, COLOR_WEIGHT, CLIP_WEIGHT]

/-- Concrete instance of `combinedScore_hybrid_spec`: a query with an
embedding against a candidate without one falls back to the PixelMode score,
and a fully-embedded pair uses the 0.25/0.15/0.60 blend. -/
theorem combinedScore_hybrid_spec_witness :
    (combinedScore
        { pHash := some "ab", colorHistogram := some [1],
          embedding := some [1], ext := none }
        { pHash := some "ab", colorHistogram := some [1],
          embedding := none, ext := none } Mode.hybrid
      = 0.6 * pHashScore (some "ab") (some "ab")
        + 0.4 * histogramSimilarity (some [1]) (some [1])
    ∧ combinedScore
        { pHash := some "ab", colorHistogram := some [1],
          embedding := some [1], ext := none }
        { pHash := some "ab", colorHistogram := some [1],
          embedding := none, ext := none } Mode.hybrid
      = combinedScore
        { pHash := some "ab", colorHistogram := some [1],
          embedding := some [1], ext := none }
        { pHash := some "ab", colorHistogram := some [1],
          embedding := none, ext := none } Mode.phash)
    ∧ combinedScore
        { pHash := some "ab", colorHistogram := some [1],
          embedding := some [1], ext := none }
        { pHash := some "ab", colorHistogram := some [1],
          embedding := some [1], ext := none } Mode.hybrid
      = 0.25 * pHashScore (some "ab") (some "ab")
        + 0.15 * histogramSimilarity (some [1]) (some [1])
        + 0.60 * clipSimilarity (some [1]) (some [1]) := by
  exact ⟨(combinedScore_hybrid_spec _ _).1 (by simp),
    (combinedScore_hybrid_spec _ _).2 (by simp)⟩

theorem considerCandidate_eq_some {q : Record} {t : ℚ} {ex : Option String}
    {m : Mode} {entry : String × Option Record} {e : String × ℚ}
    (h : considerCandidate q t ex m entry = some e) :
    ex ≠ some e.1 ∧ t ≤ e.2 := by
  unfold considerCandidate at h
  split at h
  · exact absurd h (by simp)
  · rename_i hex
    cases hr : entry.2 with
    | none => rw [hr] at h; exact absurd h (by simp)
    | some candidate =>
      rw [hr] at h
      simp only at h
      split at h
      · exact absurd h (by simp)
      · split at h
        · exact absurd h (by simp)
        · split at h
          · rename_i ht
            obtain ⟨he1, he2⟩ := Prod.mk.injEq .. ▸ Option.some.inj h
            constructor
            · rw [he1] at hex
              exact hex
            · rw [← he2]
              exact ht
          · exact absurd h (by simp)

theorem mem_findSimilar {queryData : Record}
    {cacheItems : List (String × Option Record)} {threshold : ℚ}
    {maxResults : Nat} {excludeId : Option String} {mode : Option Mode}
    {e : String × ℚ}
    (he : e ∈ findSimilar queryData cacheItems threshold maxResults excludeId mode) :
    excludeId ≠ some e.1 ∧ threshold / 100 ≤ e.2 := by
  unfold findSimilar at he
  have h1 := (List.take_sublist maxResults _).mem he
  rw [List.mem_mergeSort] at h1
  obtain ⟨entry, _, hsome⟩ := List.mem_filterMap.mp h1
  exact considerCandidate_eq_some hsome

/-- C1: for every query record, candidate pool, threshold, maxResults,
excludeId and mode, `findSimilar` returns no entry whose id equals
`excludeId`, its results are sorted by descending score, its length is at
most `maxResults`, and every returned score is at least `threshold / 100`. -/
theorem findSimilar_spec (queryData : Record)
    (cacheItems : List (String × Option Record)) (threshold : ℚ)
    (maxResults : Nat) (excludeId : Option String) (mode : Option Mode) :
    ((findSimilar queryData cacheItems threshold maxResults excludeId mode).all
        (fun e => excludeId != some e.1)) = true
    ∧ List.Pairwise (fun a b : String × ℚ => b.2 ≤ a.2)
        (findSimilar queryData cacheItems threshold maxResults excludeId mode)
    ∧ (findSimilar queryData cacheItems threshold maxResults excludeId mode).length
        ≤ maxResults
    ∧ ((findSimilar queryData cacheItems threshold maxResults excludeId mode).all
        (fun e => decide (threshold / 100 ≤ e.2))) = true := by
  refine ⟨?_, ?_, ?_, ?_⟩
  · rw [List.all_eq_true]
    intro e he
    have := (mem_findSimilar he).1
    simpa using this
  · have hsorted := @List.sorted_mergeSort (String × ℚ)
      (fun a b : String × ℚ => decide (b.2 ≤ a.2))
      (fun a b c h1 h2 => by
        simp only [decide_eq_true_eq] at h1 h2 ⊢
        exact le_trans h2 h1)
      (fun a b => by
        simp only [Bool.or_eq_true, decide_eq_true_eq]
        exact le_total b.2 a.2)
      (List.filterMap
        (considerCandidate queryData (threshold / 100) excludeId
          (mode.getD Mode.phash)) cacheItems)
    have hsorted' := hsorted.imp
      (fun h => of_decide_eq_true h)
    unfold findSimilar
    exact List.Pairwise.sublist (List.take_sublist maxResults _) hsorted'
  · unfold findSimilar
    rw [List.length_take]
    exact min_le_left _ _
  · rw [List.all_eq_true]
    intro e he
    have := (mem_findSimilar he).2
    simpa using this

/-- Concrete instance of `findSimilar_spec` on a three-candidate pool with
the query's own id excluded. -/
theorem findSimilar_spec_witness :
    ((findSimilar ⟨some "ab", some [1], none, none⟩
        [("q", some ⟨some "ab", some [1], none, none⟩),
         ("a", some ⟨some "ab", some [1], none, none⟩),
         ("b", some ⟨some "cd", some [1], none, none⟩)]
        50 2 (some "q") none).all
      (fun e => (some "q" : Option String) != some e.1)) = true
    ∧ List.Pairwise (fun a b : String × ℚ => b.2 ≤ a.2)
        (findSimilar ⟨some "ab", some [1], none, none⟩
          [("q", some ⟨some "ab", some [1], none, none⟩),
           ("a", some ⟨some "ab", some [1], none, none⟩),
           ("b", some ⟨some "cd", some [1], none, none⟩)]
          50 2 (some "q") none)
    ∧ (findSimilar ⟨some "ab", some [1], none, none⟩
        [("q", some ⟨some "ab", some [1], none, none⟩),
         ("a", some ⟨some "ab", some [1], none, none⟩),
         ("b", some ⟨some "cd", some [1], none, none⟩)]
        50 2 (some "q") none).length ≤ 2
    ∧ ((findSimilar ⟨some "ab", some [1], none, none⟩
        [("q", some ⟨some "ab", some [1], none, none⟩),
         ("a", some ⟨some "ab", some [1], none, none⟩),
         ("b", some ⟨some "cd", some [1], none, none⟩)]
        50 2 (some "q") none).all
      (fun e => decide ((50 : ℚ) / 100 ≤ e.2))) = true :=
  findSimilar_spec _ _ 50 2 (some "q") none

/-! ## Claim theorems: cache store -/

/-- C5: after `put(id, r)`, `get(id)` returns `r`; re-opening the saved store
with a different `libraryPath` (the library fingerprint) or with a different
schema version resets the whole document to empty, so `get` returns nothing
for every id. -/
theorem cache_roundtrip_reset_spec (d : CacheDocument) (itemId : String)
    (r : Record) (libraryPath : String) :
    getHash (setHash d itemId r) itemId = some r
    ∧ (libraryPath ≠ d.libraryPath →
        ∀ i, getHash (loadCache (some (setHash d itemId r)) libraryPath) i = none)
    ∧ (d.version ≠ CACHE_VERSION →
        ∀ i lp, getHash (loadCache (some d) lp) i = none) := by
  refine ⟨by simp [getHash, setHash], ?_, ?_⟩
  · intro hne i
    simp only [loadCache]
    rw [if_neg]
    · rfl
    · rintro ⟨_, hl⟩
      exact hne hl.symm
  · intro hv i lp
    simp only [loadCache]
    rw [if_neg]
    · rfl
    · rintro ⟨h1, _⟩
      exact hv h1

/-- Concrete instance of `cache_roundtrip_reset_spec`: round trip on one
record, then a reset on a library-path change and on a version change. -/
theorem cache_roundtrip_reset_spec_witness :
    getHash (setHash ⟨3, "libA", fun _ => none⟩ "a"
        ⟨some "ff", some [1], none, none⟩) "a"
      = some ⟨some "ff", some [1], none, none⟩
    ∧ getHash (loadCache (some (setHash ⟨3, "libA", fun _ => none⟩ "a"
        ⟨some "ff", some [1], none, none⟩)) "libB") "a" = none
    ∧ getHash (loadCache
        (some (⟨2, "libA", fun _ => none⟩ : CacheDocument)) "libA") "a" = none := by
  refine ⟨(cache_roundtrip_reset_spec ⟨3, "libA", fun _ => none⟩ "a"
      ⟨some "ff", some [1], none, none⟩ "libB").1,
    (cache_roundtrip_reset_spec ⟨3, "libA", fun _ => none⟩ "a"
      ⟨some "ff", some [1], none, none⟩ "libB").2.1 (by decide) "a",
    (cache_roundtrip_reset_spec ⟨2, "libA", fun _ => none⟩ "a"
      ⟨some "ff", some [1], none, none⟩ "libB").2.2 (by decide) "a" "libA"⟩

/-! ## Claim theorems: indexer -/

/-- Counterexample to C3 as stated: a FingerprintPhase run over a library in
which every image item is already fingerprinted (here: an empty library)
returns before calling `removeOrphans`, so the orphaned record `"x"` (its id
is in no library item) survives the run. -/
theorem indexPhash_keeps_orphan_counterexample :
    getHash
        (indexPhash (fun _ => none) []
          ⟨3, "lib", fun id =>
            if id = "x" then some ⟨some "ff", some [1], none, some "png"⟩
            else none⟩)
        "x" = some ⟨some "ff", some [1], none, some "png"⟩
    ∧ "x" ∉ ([] : List Item).map Item.id := by
  constructor
  · rfl
  · simp

theorem getHash_foldl_indexPhashStep (hasher : String → Option HashResult)
    (l : List Item) (d : CacheDocument) {id : String}
    (h : ∀ item ∈ l, item.id ≠ id) :
    getHash (l.foldl (indexPhashStep hasher) d) id = getHash d id := by
  induction l generalizing d with
  | nil => rfl
  | cons x xs ih =>
    rw [List.foldl_cons, ih _ (fun i hi => h i (List.mem_cons_of_mem _ hi))]
    unfold indexPhashStep
    cases getHashPath x with
    | none => rfl
    | some p =>
      dsimp only
      cases hasher p with
      | none => rfl
      | some hs =>
        dsimp only
        have hne : id ≠ x.id := Ne.symm (h x (List.mem_cons_self ..))
        simp [getHash, setHash, hne]

/-- C3 amended: whenever at least one image item still lacks a valid cached
fingerprint, a FingerprintPhase run prunes every orphaned record (before
processing the remaining items); when no item needs fingerprinting the run
returns early without pruning (see the counterexample). -/
theorem indexPhash_prunes_orphans_spec (hasher : String → Option HashResult)
    (items : List Item) (d : CacheDocument)
    (hwork : items.filter
        (fun item => isImageType item.ext && !hasValidHash d item.id) ≠ [])
    (id : String) (hid : id ∉ items.map Item.id) :
    getHash (indexPhash hasher items d) id = none := by
  unfold indexPhash
  rw [if_neg (by simpa [List.isEmpty_iff] using hwork)]
  rw [getHash_foldl_indexPhashStep]
  · simp only [getHash, removeOrphans]
    rw [if_neg]
    intro hc
    exact hid (by simpa using hc)
  · intro item hmem heq
    exact hid (heq ▸ List.mem_map_of_mem Item.id (List.mem_of_mem_filter hmem))

/-- Concrete instance of `indexPhash_prunes_orphans_spec`: with one image item
still unfingerprinted, the run deletes the orphaned record `"x"`. -/
theorem indexPhash_prunes_orphans_spec_witness :
    getHash
        (indexPhash (fun _ => some ⟨"ab", [1]⟩)
          [⟨"a", some "png", some "p", none⟩]
          ⟨3, "lib", fun id =>
            if id = "x" then some ⟨some "ff", some [1], none, some "png"⟩
            else none⟩)
        "x" = none := by
  apply indexPhash_prunes_orphans_spec
  · decide
  · decide

/-- Counterexample to C4 as stated: over an arbitrary cache state (here one
whose record has an embedding but an empty — hence falsy — `pHash`, a state
the loader accepts since `_load` validates no record fields), the
FingerprintPhase re-fingerprints the item and its fresh record carries no
embedding: the present embedding `[1]` is replaced by an absent one. -/
theorem indexPhash_erases_embedding_counterexample :
    (getHash
        (⟨3, "lib", fun id =>
          if id = "a" then some ⟨some "", some [1], some [1], some "png"⟩
          else none⟩ : CacheDocument) "a").map Record.embedding
      = some (some [1])
    ∧ (getHash
        (indexPhash (fun _ => some ⟨"ff", [1]⟩)
          [⟨"a", some "png", some "p", none⟩]
          ⟨3, "lib", fun id =>
            if id = "a" then some ⟨some "", some [1], some [1], some "png"⟩
            else none⟩)
        "a").map Record.embedding = some none := by
  constructor
  · rfl
  · decide

theorem getHash_foldl_indexClipStep (embedder : String → Option (List ℚ))
    (l : List Item) (c d : CacheDocument)
    (hl : ∀ item ∈ l, (getHash d item.id).isSome = true)
    (hc : ∀ i, (getHash c i).map (fun r => (r.pHash, r.colorHistogram))
        = (getHash d i).map (fun r => (r.pHash, r.colorHistogram))) :
    ∀ i, (getHash (l.foldl (indexClipStep embedder) c) i).map
          (fun r => (r.pHash, r.colorHistogram))
        = (getHash d i).map (fun r => (r.pHash, r.colorHistogram)) := by
  induction l generalizing c with
  | nil => exact hc
  | cons x xs ih =>
    rw [List.foldl_cons]
    apply ih _ (fun item hi => hl item (List.mem_cons_of_mem _ hi))
    intro i
    unfold indexClipStep
    cases getHashPath x with
    | none => exact hc i
    | some p =>
      dsimp only
      cases embedder p with
      | none => exact hc i
      | some emb =>
        dsimp only
        by_cases hid : i = x.id
        · subst hid
          have hx := hl x (List.mem_cons_self ..)
          cases hdx : getHash d x.id with
          | none => rw [hdx] at hx; simp at hx
          | some rd =>
            have hci := hc x.id
            rw [hdx] at hci
            cases hcx : getHash c x.id with
            | none => rw [hcx] at hci; simp at hci
            | some rc =>
              rw [hcx] at hci
              rw [Option.getD_some]
              simpa [getHash, setHash] using hci
        · simp only [getHash, setHash, if_neg hid]
          exact hc i

/-- C4 amended: on any cache state in which every record holding an embedding
is fingerprint-complete (which is every state the Indexer itself produces:
FingerprintPhase writes complete fingerprints and EmbeddingPhase preserves
them), no Indexer write replaces a present embedding with an absent one — a
FingerprintPhase run leaves every embedded record untouched, and every
EmbeddingPhase write keeps the record's existing `pHash` and
`colorHistogram`. On states with an embedded but fingerprint-incomplete
record, the FingerprintPhase write does erase the embedding (see the
counterexample). -/
theorem indexer_preserves_data_spec (hasher : String → Option HashResult)
    (embedder : String → Option (List ℚ)) (ready : Bool) (items : List Item)
    (d : CacheDocument)
    (hsound : ∀ id r, getHash d id = some r → r.embedding.isSome = true →
        hasValidHash d id = true) :
    (∀ id r r', getHash d id = some r → r.embedding.isSome = true →
        getHash (indexPhash hasher items d) id = some r' → r' = r)
    ∧ (∀ i, (getHash (indexClip embedder ready items d) i).map
          (fun r => (r.pHash, r.colorHistogram))
        = (getHash d i).map (fun r => (r.pHash, r.colorHistogram))) := by
  constructor
  · intro id r r' hr hemb hr'
    simp only [indexPhash] at hr'
    split at hr'
    · rw [hr] at hr'
      exact (Option.some.inj hr').symm
    · have hvalid : hasValidHash d id = true := hsound id r hr hemb
      rw [getHash_foldl_indexPhashStep] at hr'
      · simp only [getHash, removeOrphans] at hr'
        split at hr'
        · rw [show d.items id = some r from hr] at hr'
          exact (Option.some.inj hr').symm
        · exact absurd hr' (by simp)
      · intro item hmem heq
        have hf := List.of_mem_filter hmem
        rw [heq, hvalid] at hf
        simp at hf
  · unfold indexClip
    split
    · intro i
      rfl
    · apply getHash_foldl_indexClipStep
      · intro item hmem
        have hf := List.of_mem_filter hmem
        rw [Bool.and_eq_true] at hf
        rcases hf with ⟨_, hf⟩
        cases hdx : getHash d item.id with
        | none => rw [hdx] at hf; simp at hf
        | some rd => simp
      · intro i
        rfl

/-- Concrete instance of `indexer_preserves_data_spec` on a cache with one
embedded, fingerprint-complete record. -/
theorem indexer_preserves_data_spec_witness :
    ((getHash
        (indexClip (fun _ => some [9]) true [⟨"e", some "png", some "p", none⟩]
          ⟨3, "lib", fun id =>
            if id = "e" then some ⟨some "ff", some [1], some [2], some "png"⟩
            else none⟩)
        "e").map (fun r => (r.pHash, r.colorHistogram))
      = (getHash
          (⟨3, "lib", fun id =>
            if id = "e" then some ⟨some "ff", some [1], some [2], some "png"⟩
            else none⟩ : CacheDocument)
          "e").map (fun r => (r.pHash, r.colorHistogram)))
    ∧ (⟨some "ff", some [1], some [2], some "png"⟩ : Record)
        = ⟨some "ff", some [1], some [2], some "png"⟩ := by
  refine ⟨(indexer_preserves_data_spec (fun _ => some ⟨"ff", [1]⟩)
      (fun _ => some [9]) true [⟨"e", some "png", some "p", none⟩]
      ⟨3, "lib", fun id =>
        if id = "e" then some ⟨some "ff", some [1], some [2], some "png"⟩
        else none⟩ ?_).2 "e",
    (indexer_preserves_data_spec (fun _ => some ⟨"ff", [1]⟩)
      (fun _ => some [9]) true [⟨"e", some "png", some "p", none⟩]
      ⟨3, "lib", fun id =>
        if id = "e" then some ⟨some "ff", some [1], some [2], some "png"⟩
        else none⟩ ?_).1 "e" ⟨some "ff", some [1], some [2], some "png"⟩
      ⟨some "ff", some [1], some [2], some "png"⟩ (by decide) (by decide)
      (by decide)⟩ <;>
  · intro id r hr he
    simp only [getHash] at hr
    split at hr
    · rename_i hide
      subst hide
      decide
    · exact absurd hr (by simp)

/-! ## Claim theorems: fingerprint computer -/

theorem binIndex_lt (p : Pixel) : binIndex p < 64 := by
  unfold binIndex
  have h1 := min_le_right (p.r / 64) 3
  have h2 := min_le_right (p.g / 64) 3
  have h3 := min_le_right (p.b / 64) 3
  omega

theorem sum_set_getD_succ (l : List Nat) (i : Nat) (h : i < l.length) :
    (l.set i (l.getD i 0 + 1)).sum = l.sum + 1 := by
  induction l generalizing i with
  | nil => simp at h
  | cons x xs ih =>
    cases i with
    | zero =>
      simp only [List.set_cons_zero, List.getD_cons_zero, List.sum_cons]
      omega
    | succ n =>
      simp only [List.set_cons_succ, List.getD_cons_succ, List.sum_cons]
      rw [ih n (by simpa using h)]
      omega

theorem histAccum_foldl_len_sum (pixels : List Pixel) (acc : List Nat × Nat)
    (hlen : acc.1.length = 64) :
    (pixels.foldl histAccum acc).1.length = 64
    ∧ (pixels.foldl histAccum acc).1.sum + acc.2
        = acc.1.sum + (pixels.foldl histAccum acc).2 := by
  induction pixels generalizing acc with
  | nil => exact ⟨hlen, rfl⟩
  | cons p ps ih =>
    rw [List.foldl_cons]
    by_cases hskip : p.a < 128
    · have he : histAccum acc p = acc := by
        unfold histAccum
        rw [if_pos hskip]
      rw [he]
      exact ih acc hlen
    · have he : histAccum acc p
          = (acc.1.set (binIndex p) (acc.1.getD (binIndex p) 0 + 1), acc.2 + 1) := by
        unfold histAccum
        rw [if_neg hskip]
      have hlen' : (histAccum acc p).1.length = 64 := by
        rw [he]
        simpa using hlen
      obtain ⟨h1, h2⟩ := ih (histAccum acc p) hlen'
      refine ⟨h1, ?_⟩
      have hsum : (histAccum acc p).1.sum = acc.1.sum + 1 := by
        rw [he]
        exact sum_set_getD_succ _ _ (by rw [hlen]; exact binIndex_lt p)
      have hcnt : (histAccum acc p).2 = acc.2 + 1 := by rw [he]
      omega

theorem histAccum_foldl_count (pixels : List Pixel) (acc : List Nat × Nat) :
    (pixels.foldl histAccum acc).2
      = acc.2 + pixels.countP (fun p => decide (128 ≤ p.a)) := by
  induction pixels generalizing acc with
  | nil => simp
  | cons p ps ih =>
    rw [List.foldl_cons, ih, List.countP_cons]
    by_cases hskip : p.a < 128
    · have he : histAccum acc p = acc := by
        unfold histAccum
        rw [if_pos hskip]
      rw [he]
      have hdec : (decide (128 ≤ p.a)) = false := by simpa using hskip
      simp [hdec]
    · have he : (histAccum acc p).2 = acc.2 + 1 := by
        unfold histAccum
        rw [if_neg hskip]
      rw [he]
      have hdec : (decide (128 ≤ p.a)) = true := by simpa using hskip
      simp [hdec]
      omega

theorem histAccum_foldl_no_visible (pixels : List Pixel) (acc : List Nat × Nat)
    (h : ∀ p ∈ pixels, p.a < 128) : pixels.foldl histAccum acc = acc := by
  induction pixels generalizing acc with
  | nil => rfl
  | cons p ps ih =>
    rw [List.foldl_cons]
    have he : histAccum acc p = acc := by
      unfold histAccum
      rw [if_pos (h p (List.mem_cons_self ..))]
    rw [he]
    exact ih acc (fun q hq => h q (List.mem_cons_of_mem _ hq))

/-- C6: for every pixel buffer, `computeColorHistogram` returns exactly 64
non-negative values; they sum to 1 when at least one pixel has alpha at or
above the visibility threshold (128 ≈ 50% opacity), and the result is the
all-zero vector when no pixel does (never dividing by zero). -/
theorem computeColorHistogram_spec (pixels : List Pixel) :
    (computeColorHistogram pixels).length = 64
    ∧ ((computeColorHistogram pixels).all (fun x => decide (0 ≤ x))) = true
    ∧ ((∃ p ∈ pixels, 128 ≤ p.a) → (computeColorHistogram pixels).sum = 1)
    ∧ ((∀ p ∈ pixels, p.a < 128) →
        computeColorHistogram pixels = List.replicate 64 (0 : ℚ)) := by
  obtain ⟨hlen, hsum⟩ :=
    histAccum_foldl_len_sum pixels (List.replicate 64 0, 0) (by simp)
  have hcount := histAccum_foldl_count pixels (List.replicate 64 0, 0)
  refine ⟨?_, ?_, ?_, ?_⟩
  · simp only [computeColorHistogram]
    split <;> rw [List.length_map] <;> exact hlen
  · rw [List.all_eq_true]
    intro x hx
    simp only [computeColorHistogram] at hx
    split at hx <;> obtain ⟨c, _, rfl⟩ := List.mem_map.mp hx <;>
      simp only [decide_eq_true_eq] <;> positivity
  · intro hex
    have hpos : 0 < (pixels.foldl histAccum (List.replicate 64 0, 0)).2 := by
      rw [hcount]
      have hc : 0 < pixels.countP (fun p => decide (128 ≤ p.a)) := by
        rw [List.countP_pos_iff]
        obtain ⟨p, hp, hpa⟩ := hex
        exact ⟨p, hp, by simpa using hpa⟩
      omega
    simp only [computeColorHistogram]
    rw [if_pos hpos]
    have hs1 : (pixels.foldl histAccum (List.replicate 64 0, 0)).1.sum
        = (pixels.foldl histAccum (List.replicate 64 0, 0)).2 := by
      have hz : (List.replicate 64 (0 : ℕ), (0 : ℕ)).1.sum = 0 := by simp
      have h0 : (List.replicate 64 (0 : ℕ), (0 : ℕ)).2 = 0 := rfl
      omega
    have hne : ((pixels.foldl histAccum (List.replicate 64 0, 0)).2 : ℚ) ≠ 0 := by
      exact_mod_cast Nat.pos_iff_ne_zero.mp hpos
    rw [show (fun c : ℕ => (c : ℚ)
          / ((pixels.foldl histAccum (List.replicate 64 0, 0)).2 : ℚ))
        = fun c : ℕ => (Nat.cast c : ℚ)
          * ((pixels.foldl histAccum (List.replicate 64 0, 0)).2 : ℚ)⁻¹ from
      funext fun c => div_eq_mul_inv _ _]
    rw [List.sum_map_mul_right, ← Nat.cast_list_sum, hs1]
    exact mul_inv_cancel₀ hne
  · intro hall
    have he := histAccum_foldl_no_visible pixels (List.replicate 64 0, 0) hall
    simp only [computeColorHistogram]
    rw [he]
    norm_num

/-- Concrete instance of `computeColorHistogram_spec`: one opaque pixel gives
a histogram summing to 1; one transparent pixel gives the all-zero vector. -/
theorem computeColorHistogram_spec_witness :
    (computeColorHistogram [⟨10, 20, 30, 255⟩]).sum = 1
    ∧ computeColorHistogram [⟨10, 20, 30, 0⟩] = List.replicate 64 (0 : ℚ) := by
  refine ⟨(computeColorHistogram_spec _).2.2.1
      ⟨⟨10, 20, 30, 255⟩, by simp, by norm_num⟩,
    (computeColorHistogram_spec _).2.2.2 ?_⟩
  intro p hp
  rw [List.mem_singleton] at hp
  subst hp
  norm_num

end FindByMedia
